import Mathlib

/-!
Shallow embedding of `src/opencog/nlp/question/WordRelQuery.cc`.

Atoms are modelled as a closed sum of typed nodes (type tag plus name
string) and typed links (type tag plus ordered outgoing atoms).  The
atomspace is modelled as the list of atoms it holds; the atomspace
deduplicates atoms, so structural equality of atoms coincides with the
pointer equality used by the C++ code.  Handles are identified with the
atoms they resolve to (the TLB lookup is the identity here).
-/

/-- Element type tags used by WordRelQuery.cc, from the wire-level
vocabulary of the atomspace. -/
inductive AtomType where
  | WORD_NODE
  | SEME_NODE
  | WORD_INSTANCE_NODE
  | DEFINED_LINGUISTIC_CONCEPT_NODE
  | DEFINED_LINGUISTIC_RELATIONSHIP_NODE
  | CONCEPT_NODE
  | ANCHOR_NODE
  | INHERITANCE_LINK
  | LEMMA_LINK
  | REFERENCE_LINK
  | LIST_LINK
deriving DecidableEq

open AtomType

/-- A graph element: a Node (type tag and name) or a Link (type tag and
ordered outgoing set).  Node type tags occur only on nodes and link type
tags only on links, per the atomspace's typing discipline. -/
inductive Atom where
  | node (ty : AtomType) (name : String)
  | link (ty : AtomType) (out : List Atom)

mutual
/-- Boolean structural equality on atoms (pointer equality in the
deduplicating store). -/
def atomBEq : Atom → Atom → Bool
  | Atom.node t1 n1, Atom.node t2 n2 => decide (t1 = t2) && decide (n1 = n2)
  | Atom.link t1 o1, Atom.link t2 o2 => decide (t1 = t2) && atomBEqList o1 o2
  | _, _ => false

/-- Boolean structural equality on outgoing sets. -/
def atomBEqList : List Atom → List Atom → Bool
  | [], [] => true
  | a :: as, b :: bs => atomBEq a b && atomBEqList as bs
  | _, _ => false
end

mutual
/-- `atomBEq` decides propositional equality on atoms. -/
theorem atomBEq_iff : (a b : Atom) → (atomBEq a b = true ↔ a = b)
  | Atom.node t1 n1, Atom.node t2 n2 => by
      simp [atomBEq, Atom.node.injEq]
  | Atom.node _ _, Atom.link _ _ => by simp [atomBEq]
  | Atom.link _ _, Atom.node _ _ => by simp [atomBEq]
  | Atom.link t1 o1, Atom.link t2 o2 => by
      simp [atomBEq, Atom.link.injEq, atomBEqList_iff o1 o2]

/-- `atomBEqList` decides propositional equality on outgoing sets. -/
theorem atomBEqList_iff : (l1 l2 : List Atom) → (atomBEqList l1 l2 = true ↔ l1 = l2)
  | [], [] => by simp [atomBEqList]
  | [], _ :: _ => by simp [atomBEqList]
  | _ :: _, [] => by simp [atomBEqList]
  | a :: as, b :: bs => by
      simp [atomBEqList, atomBEq_iff a b, atomBEqList_iff as bs]
end

instance : DecidableEq Atom :=
  fun a b => decidable_of_iff (atomBEq a b = true) (atomBEq_iff a b)

/-- `Atom::getType()`. -/
def Atom.getType : Atom → AtomType
  | .node ty _ => ty
  | .link ty _ => ty

/-- `Node::getName()`.  Only ever invoked on nodes (the C++ callers hold a
`Node *` obtained by cast after a node-type check); the value on links is
irrelevant. -/
def Atom.getName : Atom → String
  | .node _ name => name
  | .link _ _ => ""

/-- The atomspace: the collection of atoms currently in the store. -/
abbrev AtomSpace := List Atom

/-- Modelled from the spec: `FollowLink::follow_binary_link(a, t)` from
`opencog/atomspace/ForeachChaseLink.h` (a Graph Store collaborator not in
this repository).  Follows the first incoming binary link of type `t`
whose first outgoing atom is `a` and returns the atom at the far end;
absent such a link the C++ returns NULL, modelled as `none`. -/
def follow_binary_link (asp : AtomSpace) (a : Atom) (t : AtomType) : Option Atom :=
  (List.find? (fun l => match l with
      | Atom.link lt [x, _] => decide (lt = t) && decide (x = a)
      | _ => false) asp).bind
    (fun l => match l with
      | Atom.link _ [_, y] => some y
      | _ => none)

/-- `WordRelQuery::is_qVar` (WordRelQuery.cc lines 86-106): true iff the
atom is a node of type DefinedLinguisticConcept whose name is exactly one
of "who", "what", "when", "where", "why".  A link never carries the
DefinedLinguisticConcept node type, so the C++ type check rejects links. -/
def is_qVar : Atom → Bool
  | Atom.node ty name =>
      if DEFINED_LINGUISTIC_CONCEPT_NODE ≠ ty then false
      else if name = "who" then true
      else if name = "what" then true
      else if name = "when" then true
      else if name = "where" then true
      else if name = "why" then true
      else false
  | Atom.link _ _ => false

/-- `WordRelQuery::is_word_a_query` (lines 114-117): true iff some
Inheritance link in the store goes from `word_inst` to an atom satisfying
`is_qVar`.  The link chase (`foreach_binary_link`) is modelled from the
spec: it enumerates incoming binary Inheritance links with `word_inst` in
the first position and tests the atom in the second position. -/
def is_word_a_query (asp : AtomSpace) (word_inst : Atom) : Bool :=
  List.any asp (fun l => match l with
    | Atom.link lt [x, y] =>
        decide (lt = INHERITANCE_LINK) && decide (x = word_inst) && is_qVar y
    | _ => false)

/-- Per-query state of a `WordRelQuery` object: the normalized predicate
and the bound-variable set, both duplicate-free handle sequences. -/
structure WordRelQuery where
  normed_predicate : List Atom
  bound_vars : List Atom
deriving DecidableEq

/-- `WordRelQuery::add_to_predicate` (lines 137-148): scan
`normed_predicate` for a duplicate of `ah`; if present return the state
unchanged, otherwise push `ah` onto the back. -/
def add_to_predicate (q : WordRelQuery) (ah : Atom) : WordRelQuery :=
  if ah ∈ q.normed_predicate then q
  else { q with normed_predicate := q.normed_predicate ++ [ah] }

/-- `WordRelQuery::add_to_vars` (lines 150-161): scan `bound_vars` for a
duplicate of `ah`; if present return the state unchanged, otherwise push
`ah` onto the back. -/
def add_to_vars (q : WordRelQuery) (ah : Atom) : WordRelQuery :=
  if ah ∈ q.bound_vars then q
  else { q with bound_vars := q.bound_vars ++ [ah] }

mutual
/-- `WordRelQuery::find_vars` (lines 167-176): recurse over the outgoing
set first (`foreach_outgoing_handle`; a node has none), then test
`is_word_a_query` and, when it holds, add the atom to the bound-variable
set.  The C++ callback returns `false` unconditionally, so the foreach
traversal always runs to completion; only the state is modelled. -/
def find_vars (asp : AtomSpace) (q : WordRelQuery) (a : Atom) : WordRelQuery :=
  match a with
  | Atom.node ty name =>
      if is_word_a_query asp (Atom.node ty name) then
        add_to_vars q (Atom.node ty name)
      else q
  | Atom.link ty out =>
      let q1 := find_vars_list asp q out
      if is_word_a_query asp (Atom.link ty out) then
        add_to_vars q1 (Atom.link ty out)
      else q1
termination_by sizeOf a

/-- Traversal of `find_vars` over an outgoing set, left to right. -/
def find_vars_list (asp : AtomSpace) (q : WordRelQuery) (l : List Atom) : WordRelQuery :=
  match l with
  | [] => q
  | a :: rest => find_vars_list asp (find_vars asp q a) rest
termination_by sizeOf l
end

/-- `WordRelQuery::word_instance_match` (lines 196-214), mismatch
semantics: identical atoms match; otherwise each side's lemma is resolved
by following an incoming LemmaLink, and the two results are compared (a
NULL result, here `none`, compares equal to another NULL). -/
def word_instance_match (asp : AtomSpace) (aa ab : Atom) : Bool :=
  if aa = ab then false
  else if follow_binary_link asp aa LEMMA_LINK = follow_binary_link asp ab LEMMA_LINK then false
  else true

/-- String truncation at the first underscore used by the
DefinedLinguisticConcept branch of `node_match` (lines 305-322):
`strchr(s, underscore)` followed by a copy of the prefix. -/
def truncUnderscore (s : String) : String := s.takeWhile (fun c => c ≠ '_')

/-- `WordRelQuery::node_match` (lines 257-336), mismatch semantics.  The
DefinedLinguisticRelationship branch reproduces the source exactly: line
275 assigns `ssol` from `npat->getName()`, so the pattern node's name is
tested twice and the solution node's name never is. -/
def node_match (asp : AtomSpace) (npat nsoln : Atom) : Bool :=
  let pattype := npat.getType
  let soltype := nsoln.getType
  if pattype ≠ soltype ∧ WORD_NODE ≠ soltype ∧ SEME_NODE ≠ soltype ∧
     WORD_INSTANCE_NODE ≠ soltype then true
  else if DEFINED_LINGUISTIC_RELATIONSHIP_NODE = soltype then
    let spat := npat.getName
    if spat ≠ "isa" ∧ spat ≠ "hypothetical_isa" then true
    else
      let ssol := npat.getName
      if ssol ≠ "isa" ∧ ssol ≠ "hypothetical_isa" then true
      else false
  else if WORD_INSTANCE_NODE = soltype ∨ WORD_NODE = soltype ∨ SEME_NODE = soltype then
    word_instance_match asp npat nsoln
  else if DEFINED_LINGUISTIC_CONCEPT_NODE = soltype then
    if truncUnderscore npat.getName = truncUnderscore nsoln.getName then false else true
  else true

/-- `AtomSpace::addNode`: create the node, or reuse it if an equal node
already exists; returns the updated store and the node's handle. -/
def addNode (asp : AtomSpace) (t : AtomType) (name : String) : AtomSpace × Atom :=
  let a := Atom.node t name
  if a ∈ asp then (asp, a) else (asp ++ [a], a)

/-- `AtomSpace::addLink` (binary form used here): create the link, or
reuse it if an equal link already exists; returns the updated store and
the link's handle. -/
def addLink (asp : AtomSpace) (t : AtomType) (out : List Atom) : AtomSpace × Atom :=
  let a := Atom.link t out
  if a ∈ asp then (asp, a) else (asp ++ [a], a)

/-- `WordRelQuery::solution` (lines 340-390), modelled as the transformation
it performs on the atomspace.  First every grounding value is screened
with `is_word_a_query` (reject: store unchanged); then the anchor node is
added; then either the first bound variable's grounding is attached when
it is a node (a non-node grounding aborts after the anchor was added), or,
with no bound variables, a "yes" word node is attached.  The C++ returns
`false` on every path, so only the store effect is modelled. -/
def solution (bound_vars : List Atom) (asp : AtomSpace)
    (var_grounding : List (Atom × Atom)) : AtomSpace :=
  if var_grounding.any (fun pv => is_word_a_query asp pv.2) then asp
  else
    let p := addNode asp ANCHOR_NODE "# QUERY SOLUTION"
    match bound_vars with
    | hv :: _ =>
        match List.lookup hv var_grounding with
        | some (Atom.node t nm) => (addLink p.1 LIST_LINK [p.2, Atom.node t nm]).1
        | _ => p.1
    | [] =>
        let p2 := addNode p.1 WORD_NODE "yes"
        (addLink p2.1 LIST_LINK [p.2, p2.2]).1

/-! ### Helper lemmas about the store primitives -/

theorem addNode_snd (asp : AtomSpace) (t : AtomType) (n : String) :
    (addNode asp t n).2 = Atom.node t n := by
  simp only [addNode]
  split <;> rfl

theorem addLink_snd (asp : AtomSpace) (t : AtomType) (out : List Atom) :
    (addLink asp t out).2 = Atom.link t out := by
  simp only [addLink]
  split <;> rfl

theorem mem_addNode_self (asp : AtomSpace) (t : AtomType) (n : String) :
    Atom.node t n ∈ (addNode asp t n).1 := by
  simp only [addNode]
  split
  next h => exact h
  next => simp

theorem mem_addNode_of_mem (asp : AtomSpace) (t : AtomType) (n : String)
    (x : Atom) (hx : x ∈ asp) : x ∈ (addNode asp t n).1 := by
  simp only [addNode]
  split
  next => exact hx
  next => exact List.mem_append_left _ hx

theorem mem_addLink_self (asp : AtomSpace) (t : AtomType) (out : List Atom) :
    Atom.link t out ∈ (addLink asp t out).1 := by
  simp only [addLink]
  split
  next h => exact h
  next => simp

theorem mem_addLink_of_mem (asp : AtomSpace) (t : AtomType) (out : List Atom)
    (x : Atom) (hx : x ∈ asp) : x ∈ (addLink asp t out).1 := by
  simp only [addLink]
  split
  next => exact hx
  next => exact List.mem_append_left _ hx

/-! ### Claim theorems -/

/-- C5: `is_qVar` returns true exactly on nodes of type
DefinedLinguisticConcept whose name is one of "who", "what", "when",
"where", "why" (case-sensitive exact match); any other name or element
shape yields false. -/
theorem C5_is_qVar_characterization (a : Atom) :
    is_qVar a = true ↔
      ∃ n, a = Atom.node DEFINED_LINGUISTIC_CONCEPT_NODE n ∧
        (n = "who" ∨ n = "what" ∨ n = "when" ∨ n = "where" ∨ n = "why") := by
  constructor
  · intro h
    cases a with
    | link ty out => simp [is_qVar] at h
    | node ty name =>
      simp only [is_qVar] at h
      by_cases hty : DEFINED_LINGUISTIC_CONCEPT_NODE ≠ ty
      · rw [if_pos hty] at h
        exact absurd h (by simp)
      · have hty2 : DEFINED_LINGUISTIC_CONCEPT_NODE = ty := not_not.mp hty
        subst hty2
        rw [if_neg hty] at h
        refine ⟨name, rfl, ?_⟩
        by_cases w1 : name = "who"
        · exact Or.inl w1
        rw [if_neg w1] at h
        by_cases w2 : name = "what"
        · exact Or.inr (Or.inl w2)
        rw [if_neg w2] at h
        by_cases w3 : name = "when"
        · exact Or.inr (Or.inr (Or.inl w3))
        rw [if_neg w3] at h
        by_cases w4 : name = "where"
        · exact Or.inr (Or.inr (Or.inr (Or.inl w4)))
        rw [if_neg w4] at h
        by_cases w5 : name = "why"
        · exact Or.inr (Or.inr (Or.inr (Or.inr w5)))
        rw [if_neg w5] at h
        exact absurd h (by simp)
  · rintro ⟨n, rfl, hcase⟩
    rcases hcase with h | h | h | h | h <;> subst h <;> rfl

/-- C6: when the pattern and solution type tags differ and the solution
type is none of Word, Seme, WordInstance, `node_match` reports a mismatch
regardless of the node names and of the store contents (so before any
name-based or lemma-based comparison). -/
theorem C6_type_gate (asp : AtomSpace) (tp ts : AtomType) (np ns : String)
    (h1 : tp ≠ ts) (h2 : ts ≠ WORD_NODE) (h3 : ts ≠ SEME_NODE)
    (h4 : ts ≠ WORD_INSTANCE_NODE) :
    node_match asp (Atom.node tp np) (Atom.node ts ns) = true := by
  simp only [node_match, Atom.getType]
  rw [if_pos ⟨h1, fun h => h2 h.symm, fun h => h3 h.symm, fun h => h4 h.symm⟩]

/-- Witness for C6 at concrete input. -/
theorem C6_type_gate_witness :
    node_match [] (Atom.node CONCEPT_NODE "a") (Atom.node ANCHOR_NODE "b") = true :=
  C6_type_gate [] _ _ _ _ (by decide) (by decide) (by decide) (by decide)

/-- C1 (code evaluation at the failing input): with a pattern node named
"isa" and a solution node named "obj", both of type
DefinedLinguisticRelationship, `node_match` accepts (mismatch=false),
because line 275 of the source reads the pattern node's name into `ssol`
and never consults the solution node's name.  The claim requires
mismatch=true here. -/
theorem C1_dlr_branch_ignores_solution_name :
    node_match [] (Atom.node DEFINED_LINGUISTIC_RELATIONSHIP_NODE "isa")
      (Atom.node DEFINED_LINGUISTIC_RELATIONSHIP_NODE "obj") = false := by
  decide

/-- C2 counterexample: two distinct word-instance atoms in an empty store
both resolve to an absent lemma root, yet `word_instance_match` reports a
match (mismatch=false), because NULL compares equal to NULL. -/
theorem C2_counterexample :
    Atom.node WORD_INSTANCE_NODE "a" ≠ Atom.node WORD_INSTANCE_NODE "b" ∧
    follow_binary_link [] (Atom.node WORD_INSTANCE_NODE "a") LEMMA_LINK = none ∧
    follow_binary_link [] (Atom.node WORD_INSTANCE_NODE "b") LEMMA_LINK = none ∧
    word_instance_match [] (Atom.node WORD_INSTANCE_NODE "a")
      (Atom.node WORD_INSTANCE_NODE "b") = false :=
  ⟨by decide, rfl, rfl, by decide⟩

/-- C2 (amended): for distinct atoms, if exactly one side's lemma root is
absent then `word_instance_match` reports mismatch=true; if both sides'
lemma roots are absent the two NULL results compare equal and the pair is
reported as matching (mismatch=false). -/
theorem C2_absent_root_mismatch (asp : AtomSpace) (a b : Atom) (hab : a ≠ b) :
    ((follow_binary_link asp a LEMMA_LINK).isNone ≠
        (follow_binary_link asp b LEMMA_LINK).isNone →
      word_instance_match asp a b = true) ∧
    (follow_binary_link asp a LEMMA_LINK = none ∧
        follow_binary_link asp b LEMMA_LINK = none →
      word_instance_match asp a b = false) := by
  constructor
  · intro hne
    have hd : follow_binary_link asp a LEMMA_LINK ≠ follow_binary_link asp b LEMMA_LINK :=
      fun he => hne (by rw [he])
    simp only [word_instance_match, if_neg hab, if_neg hd]
  · rintro ⟨h1, h2⟩
    simp only [word_instance_match, if_neg hab]
    rw [if_pos (by rw [h1, h2])]

/-- Witness for C2 (amended): one side has a lemma link, the other does
not, and the pair is reported as a mismatch. -/
theorem C2_absent_root_mismatch_witness :
    word_instance_match
      [Atom.link LEMMA_LINK [Atom.node WORD_INSTANCE_NODE "a", Atom.node WORD_NODE "A"]]
      (Atom.node WORD_INSTANCE_NODE "a") (Atom.node WORD_INSTANCE_NODE "b") = true :=
  (C2_absent_root_mismatch _ _ _ (by decide)).1 (by decide)

/-- C9: `word_instance_match` is symmetric in its two atoms. -/
theorem C9_word_instance_match_symm (asp : AtomSpace) (a b : Atom) :
    word_instance_match asp a b = word_instance_match asp b a := by
  by_cases hab : a = b
  · subst hab; rfl
  · have hba : b ≠ a := fun h => hab h.symm
    simp only [word_instance_match, if_neg hab, if_neg hba]
    by_cases hl : follow_binary_link asp a LEMMA_LINK = follow_binary_link asp b LEMMA_LINK
    · rw [if_pos hl, if_pos hl.symm]
    · rw [if_neg hl, if_neg (fun h => hl h.symm)]

/-- C8: `add_to_predicate` and `add_to_vars` are idempotent, and an atom
already present by reference equality is never appended again. -/
theorem C8_add_idempotent (q : WordRelQuery) (ah : Atom) :
    add_to_predicate (add_to_predicate q ah) ah = add_to_predicate q ah ∧
    add_to_vars (add_to_vars q ah) ah = add_to_vars q ah ∧
    (ah ∈ q.normed_predicate → add_to_predicate q ah = q) ∧
    (ah ∈ q.bound_vars → add_to_vars q ah = q) := by
  refine ⟨?_, ?_, fun h => by simp [add_to_predicate, h],
    fun h => by simp [add_to_vars, h]⟩
  · by_cases h : ah ∈ q.normed_predicate
    · simp [add_to_predicate, h]
    · simp only [add_to_predicate, if_neg h]
      simp
  · by_cases h : ah ∈ q.bound_vars
    · simp [add_to_vars, h]
    · simp only [add_to_vars, if_neg h]
      simp

/-- Witness for C8 at concrete states. -/
theorem C8_add_idempotent_witness :
    add_to_predicate (add_to_predicate (WordRelQuery.mk [] []) (Atom.node CONCEPT_NODE "a"))
        (Atom.node CONCEPT_NODE "a") =
      add_to_predicate (WordRelQuery.mk [] []) (Atom.node CONCEPT_NODE "a") ∧
    add_to_predicate (WordRelQuery.mk [Atom.node CONCEPT_NODE "a"] [])
        (Atom.node CONCEPT_NODE "a") = WordRelQuery.mk [Atom.node CONCEPT_NODE "a"] [] ∧
    add_to_vars (WordRelQuery.mk [] [Atom.node CONCEPT_NODE "a"])
        (Atom.node CONCEPT_NODE "a") = WordRelQuery.mk [] [Atom.node CONCEPT_NODE "a"] :=
  ⟨(C8_add_idempotent (WordRelQuery.mk [] []) _).1,
   (C8_add_idempotent (WordRelQuery.mk [Atom.node CONCEPT_NODE "a"] []) _).2.2.1 (by decide),
   (C8_add_idempotent (WordRelQuery.mk [] [Atom.node CONCEPT_NODE "a"]) _).2.2.2 (by decide)⟩

/-- Shape test used by the validator on the first bound variable's
grounding: the C++ `dynamic_cast<Node *>` succeeds exactly on nodes (and
fails on an absent grounding, where the map lookup yields an undefined
handle). -/
def grounding_is_node : Option Atom → Bool
  | some (Atom.node _ _) => true
  | _ => false

/-- C3: when some grounding value is itself a query variable, the
validator returns before creating the anchor or any link: the store is
returned unchanged. -/
theorem C3_variable_solved_by_variable_rejected (bv : List Atom) (asp : AtomSpace)
    (vg : List (Atom × Atom))
    (h : vg.any (fun pv => is_word_a_query asp pv.2) = true) :
    solution bv asp vg = asp := by
  simp [solution, h]

/-- Witness for C3: a grounding value that is a question word, with an
Inheritance link to a "who" concept present in the store. -/
theorem C3_variable_solved_witness :
    solution []
      [Atom.node WORD_INSTANCE_NODE "x", Atom.node DEFINED_LINGUISTIC_CONCEPT_NODE "who",
       Atom.link INHERITANCE_LINK [Atom.node WORD_INSTANCE_NODE "x",
         Atom.node DEFINED_LINGUISTIC_CONCEPT_NODE "who"]]
      [(Atom.node SEME_NODE "v", Atom.node WORD_INSTANCE_NODE "x")] =
      [Atom.node WORD_INSTANCE_NODE "x", Atom.node DEFINED_LINGUISTIC_CONCEPT_NODE "who",
       Atom.link INHERITANCE_LINK [Atom.node WORD_INSTANCE_NODE "x",
         Atom.node DEFINED_LINGUISTIC_CONCEPT_NODE "who"]] :=
  C3_variable_solved_by_variable_rejected _ _ _ (by decide)

/-- C4 counterexample: with an empty store, a non-empty bound-variable
set and a first grounding that is a Link, the validator aborts without
attaching a solution, but the store is not left unchanged: the anchor
node was already created before the Node check. -/
theorem C4_counterexample :
    solution [Atom.node SEME_NODE "v"] []
      [(Atom.node SEME_NODE "v", Atom.link LIST_LINK [])] ≠ [] := by
  decide

/-- C4 (amended): with a non-empty Bound Variable Set whose first
variable's grounding is not a Node (or is absent), the validator attaches
no List-link; the store changes only by the prior creation (or reuse) of
the anchor node "# QUERY SOLUTION". -/
theorem C4_nonnode_grounding_aborts_after_anchor (hv : Atom) (rest : List Atom)
    (asp : AtomSpace) (vg : List (Atom × Atom))
    (hq : vg.any (fun pv => is_word_a_query asp pv.2) = false)
    (hn : grounding_is_node (List.lookup hv vg) = false) :
    solution (hv :: rest) asp vg = (addNode asp ANCHOR_NODE "# QUERY SOLUTION").1 := by
  rcases hlook : List.lookup hv vg with _ | a
  · simp [solution, hq, hlook]
  · cases a with
    | node t nm =>
        rw [hlook] at hn
        simp [grounding_is_node] at hn
    | link t out => simp [solution, hq, hlook]

/-- Witness for C4 (amended) at a concrete non-Node grounding. -/
theorem C4_nonnode_grounding_witness :
    solution [Atom.node SEME_NODE "v"] []
      [(Atom.node SEME_NODE "v", Atom.link LIST_LINK [])] =
      (addNode [] ANCHOR_NODE "# QUERY SOLUTION").1 :=
  C4_nonnode_grounding_aborts_after_anchor _ _ _ _ (by decide) (by decide)

/-- C7: with an empty Bound Variable Set and no grounding value that is a
query variable, the validator creates (or reuses) the anchor node
"# QUERY SOLUTION", creates the Word node "yes", and attaches a List link
from the anchor to the "yes" node. -/
theorem C7_yes_no_question_reports_yes (asp : AtomSpace) (vg : List (Atom × Atom))
    (h : vg.any (fun pv => is_word_a_query asp pv.2) = false) :
    Atom.node ANCHOR_NODE "# QUERY SOLUTION" ∈ solution [] asp vg ∧
    Atom.node WORD_NODE "yes" ∈ solution [] asp vg ∧
    Atom.link LIST_LINK [Atom.node ANCHOR_NODE "# QUERY SOLUTION", Atom.node WORD_NODE "yes"]
      ∈ solution [] asp vg := by
  have hsol : solution [] asp vg =
      (addLink (addNode (addNode asp ANCHOR_NODE "# QUERY SOLUTION").1 WORD_NODE "yes").1
        LIST_LINK
        [Atom.node ANCHOR_NODE "# QUERY SOLUTION", Atom.node WORD_NODE "yes"]).1 := by
    simp [solution, h, addNode_snd]
  rw [hsol]
  refine ⟨?_, ?_, ?_⟩
  · exact mem_addLink_of_mem _ _ _ _ (mem_addNode_of_mem _ _ _ _ (mem_addNode_self _ _ _))
  · exact mem_addLink_of_mem _ _ _ _ (mem_addNode_self _ _ _)
  · exact mem_addLink_self _ _ _

/-- Witness for C7 at the empty store and empty grounding. -/
theorem C7_yes_no_question_witness :
    Atom.node ANCHOR_NODE "# QUERY SOLUTION" ∈ solution [] [] [] ∧
    Atom.node WORD_NODE "yes" ∈ solution [] [] [] ∧
    Atom.link LIST_LINK [Atom.node ANCHOR_NODE "# QUERY SOLUTION", Atom.node WORD_NODE "yes"]
      ∈ solution [] [] [] :=
  C7_yes_no_question_reports_yes [] [] (by decide)

/-- The state extension that `find_vars` is allowed to perform: the
normalized predicate is untouched and the bound-variable set only grows
at the back. -/
def QueryExtends (q r : WordRelQuery) : Prop :=
  r.normed_predicate = q.normed_predicate ∧ ∃ l, r.bound_vars = q.bound_vars ++ l

theorem queryExtends_refl (q : WordRelQuery) : QueryExtends q q :=
  ⟨rfl, [], by simp⟩

theorem queryExtends_trans {a b c : WordRelQuery}
    (h1 : QueryExtends a b) (h2 : QueryExtends b c) : QueryExtends a c := by
  obtain ⟨e1, l1, f1⟩ := h1
  obtain ⟨e2, l2, f2⟩ := h2
  exact ⟨e2.trans e1, l1 ++ l2, by rw [f2, f1, List.append_assoc]⟩

theorem add_to_vars_queryExtends (q : WordRelQuery) (ah : Atom) :
    QueryExtends q (add_to_vars q ah) := by
  unfold add_to_vars
  split
  · exact queryExtends_refl q
  · exact ⟨rfl, [ah], rfl⟩

mutual
/-- The traversal of `find_vars` only extends the state. -/
theorem find_vars_queryExtends (asp : AtomSpace) (q : WordRelQuery) (a : Atom) :
    QueryExtends q (find_vars asp q a) := by
  cases a with
  | node ty name =>
      rw [find_vars]
      split
      · exact add_to_vars_queryExtends q _
      · exact queryExtends_refl q
  | link ty out =>
      rw [find_vars]
      split
      · exact queryExtends_trans (find_vars_list_queryExtends asp q out)
          (add_to_vars_queryExtends _ _)
      · exact find_vars_list_queryExtends asp q out
termination_by sizeOf a

/-- The traversal of `find_vars` over an outgoing set only extends the
state. -/
theorem find_vars_list_queryExtends (asp : AtomSpace) (q : WordRelQuery) (l : List Atom) :
    QueryExtends q (find_vars_list asp q l) := by
  cases l with
  | nil =>
      rw [find_vars_list]
      exact queryExtends_refl q
  | cons a rest =>
      rw [find_vars_list]
      exact queryExtends_trans (find_vars_queryExtends asp q a)
        (find_vars_list_queryExtends asp (find_vars asp q a) rest)
termination_by sizeOf l
end

/-- C10: `find_vars` leaves the normalized predicate unchanged; its only
mutation is appending entries (the query-variable occurrences collected
through `add_to_vars`) to the bound-variable set. -/
theorem C10_find_vars_preserves_predicate (asp : AtomSpace) (q : WordRelQuery) (a : Atom) :
    (find_vars asp q a).normed_predicate = q.normed_predicate ∧
    ∃ l, (find_vars asp q a).bound_vars = q.bound_vars ++ l :=
  ⟨(find_vars_queryExtends asp q a).1, (find_vars_queryExtends asp q a).2⟩
